import Mathlib

set_option maxHeartbeats 1000000

/-!
Shallow embedding of `src/resource-stream.ts` (googleapis/nodejs-paginator).

`ResourceStream<T>` is an object-mode Transform stream that pulls pages of
results from a user-supplied request function.  We embed one stream instance's
state as a record and its methods (`constructor`, `end`, `_read`, and the
completion handler `_read` passes to `this._requestFn`) as state-transition
functions.

Modelling conventions:
* JS numbers are `Int`; the sentinel `Infinity` (produced by the constructor
  from a `-1` cap) is `none` in an `Option Int`.
* A JS `{} | null | undefined` query value is `Option Q`; JS truthiness of an
  object does not look at its contents — any object, even an empty mapping, is
  truthy — so the truthiness test `!this._nextQuery` is `Option.isSome`.
* Observable effects of the Node stream machinery are recorded in extra model
  fields of the record: `pushed` (items delivered downstream by `this.push`),
  `destroyed` (the error passed to `this.destroy`, if any), `pending` (a fetch
  was issued whose completion handler has not yet run), `fetchCount` (number of
  invocations of `this._requestFn`), and `deferredRead` (whether the handler
  scheduled `setImmediate(() => this._read())`).
-/

/-- Downstream consumer behaviour during `this.push(item)`: in an object-mode
flowing stream, `push` synchronously emits the `data` event, whose listener may
call `stream.end()`, and `push` returns the backpressure signal.
`endsOn item` says whether the data listener calls `end()` upon observing
`item`; `more item` is the value `push` returns for it. -/
structure Consumer (T : Type) where
  endsOn : T → Bool
  more : T → Bool

/-- The instance state of `ResourceStream` (fields declared on src lines
31-37), together with the model fields described in the module docstring. -/
structure ResourceStream (T E Q : Type) where
  _ended : Bool
  _maxApiCalls : Option Int
  _nextQuery : Option Q
  _reading : Bool
  _requestsMade : Int
  _resultsToSend : Option Int
  pushed : List T
  destroyed : Option E
  pending : Bool
  fetchCount : Nat
  deferredRead : Bool
deriving DecidableEq

/-- The fields of `ParsedArguments` that the stream constructor reads
(`streamOptions` only tunes the underlying Transform's buffering and carries no
paginator state, so it is omitted). -/
structure ParsedArguments (Q : Type) where
  maxApiCalls : Int
  maxResults : Int
  query : Option Q
deriving DecidableEq

/-- Constructor (src lines 38-49): `-1` caps become `Infinity` (`none`),
`_nextQuery` starts at `args.query`, all flags start `false`, counters at 0. -/
def mkResourceStream (args : ParsedArguments Q) : ResourceStream T E Q where
  _ended := false
  _maxApiCalls := if args.maxApiCalls = -1 then none else some args.maxApiCalls
  _nextQuery := args.query
  _reading := false
  _requestsMade := 0
  _resultsToSend := if args.maxResults = -1 then none else some args.maxResults
  pushed := []
  destroyed := none
  pending := false
  fetchCount := 0
  deferredRead := false

/-- `end(...)` (src lines 51-54): sets `_ended := true` and lets the Transform
machinery finish the stream. -/
def endCall (s : ResourceStream T E Q) : ResourceStream T E Q :=
  { s with _ended := true }

/-- The JS test `this._resultsToSend < 1`, with `Infinity` as `none`
(`Infinity < 1` is false). -/
def budgetLt1 : Option Int → Bool
  | none => false
  | some b => decide (b < 1)

/-- The JS test `requestsMade >= this._maxApiCalls`, with `Infinity` as `none`
(a finite count is never `>= Infinity`). -/
def madeMax : Option Int → Int → Bool
  | none, _ => false
  | some m, r => decide (m ≤ r)

/-- Src lines 72-75: when the budget is finite,
`results = results.splice(0, this._resultsToSend)` retains the first
`_resultsToSend` items (JS `splice` clamps the count to `[0, length]`, and a
negative count retains nothing — `Int.toNat` does both), and
`this._resultsToSend -= results.length` subtracts the retained count.
Returns the retained items and the updated budget. -/
def truncateToBudget (budget : Option Int) (results : List T) : List T × Option Int :=
  match budget with
  | none => (results, none)
  | some b => (results.take b.toNat, some (b - (results.take b.toNat).length))

/-- Src lines 77-84: the per-item emission loop.  `more` starts `true`; before
each item `this._ended` is checked; `this.push(result)` delivers the item
downstream, may synchronously run a `data` listener that calls `end()`, and
returns the backpressure signal that is assigned to `more`. -/
def pushLoop (c : Consumer T) :
    List T → Bool → ResourceStream T E Q → ResourceStream T E Q × Bool
  | [], more, s => (s, more)
  | x :: xs, more, s =>
    if s._ended then (s, more)
    else
      pushLoop c xs (c.more x)
        { s with pushed := s.pushed ++ [x], _ended := s._ended || c.endsOn x }

/-- Src lines 64-98: the completion handler `(err, results, nextQuery) => ...`
that `_read` passes to `this._requestFn`.  On an error it destroys the stream
and returns immediately (so `_reading` is left `true`); otherwise it stores the
cursor, truncates the results to a finite budget, runs the push loop,
increments `_requestsMade`, calls `this.end()` on exhaustion
(`!this._nextQuery || this._resultsToSend < 1`) or on reaching the call cap,
schedules a deferred `_read` when the last backpressure signal allowed it and
the stream has not ended, and finally clears `_reading`. -/
def handlerStep (c : Consumer T) (s : ResourceStream T E Q) (err : Option E)
    (results : List T) (nextQuery : Option Q) : ResourceStream T E Q :=
  match err with
  | some e => { s with destroyed := some e, pending := false }
  | none =>
    let s1 := { s with _nextQuery := nextQuery, pending := false }
    let tr := truncateToBudget s1._resultsToSend results
    let s2 := { s1 with _resultsToSend := tr.2 }
    let pl := pushLoop c tr.1 true s2
    let s3 := pl.1
    let isFinished := !s3._nextQuery.isSome || budgetLt1 s3._resultsToSend
    let s4 := { s3 with _requestsMade := s3._requestsMade + 1 }
    let madeMaxCalls := madeMax s4._maxApiCalls s4._requestsMade
    let s5 := if isFinished || madeMaxCalls then endCall s4 else s4
    { s5 with _reading := false, deferredRead := pl.2 && !s5._ended }

/-- `_read` (src lines 55-63): only the `_reading` guard is checked — the
method itself has no `_ended` check; issuing a fetch sets `_reading := true`
and calls `this._requestFn(this._nextQuery, handler)` (the issued call is
recorded in the model fields `pending`/`fetchCount`). -/
def readMethod (s : ResourceStream T E Q) : ResourceStream T E Q :=
  if s._reading then s
  else { s with _reading := true, pending := true, fetchCount := s.fetchCount + 1 }

/-- External events driving one stream instance.  `pull` is a drain signal
from the readable machinery or the deferred `setImmediate` read; both occur
only while the stream has not ended (the readable machinery never pulls an
ended stream, and the deferred read is scheduled only under `!this._ended`,
src line 93), hence the `_ended` gate in `step`.  `complete` is the request
function invoking the completion handler of the outstanding fetch.
`consumerEnd` is the consumer calling `stream.end()` between handler runs. -/
inductive Event (T E Q : Type) where
  | pull
  | complete (err : Option E) (results : List T) (nextQuery : Option Q)
  | consumerEnd

/-- One event of the cooperative, single-threaded execution. -/
def step (c : Consumer T) (s : ResourceStream T E Q) : Event T E Q → ResourceStream T E Q
  | .pull => if s._ended then s else readMethod s
  | .complete err results nextQuery =>
      if s.pending then handlerStep c s err results nextQuery else s
  | .consumerEnd => endCall s

/-- Run a sequence of events from a state. -/
def run (c : Consumer T) (s : ResourceStream T E Q) :
    List (Event T E Q) → ResourceStream T E Q
  | [] => s
  | e :: es => run c (step c s e) es

/-- What the push loop delivers from a retained list when the stream has not
already ended: every item up to and including the first one on which the
consumer's data listener calls `end()`; all later items are dropped. -/
def emitUntilEnded (c : Consumer T) : List T → List T
  | [] => []
  | x :: xs => x :: (if c.endsOn x then [] else emitUntilEnded c xs)

/-- `_read` when `this._requestFn` throws synchronously: the body (src lines
62-99) is not wrapped in any try/catch, so after `_reading := true` the
exception escapes `_read` unhandled; the second component is the uncaught
exception (`none` when `_read` returned normally via the `_reading` guard).
The stream is not destroyed in either case. -/
def readWhenRequestFnThrows (e : E) (s : ResourceStream T E Q) :
    ResourceStream T E Q × Option E :=
  if s._reading then (s, none)
  else ({ s with _reading := true }, some e)

/-- The completion handler as invoked by a request function that passes extra
trailing arguments, `callback(null, results, nextQuery, ...otherArgs)`: the
callback declared on src line 64 binds only `(err, results, nextQuery)`, so
the trailing arguments are discarded — no state field records them. -/
def handlerStepJS (c : Consumer T) (s : ResourceStream T E Q) (err : Option E)
    (results : List T) (nextQuery : Option Q) (_otherArgs : List A) :
    ResourceStream T E Q :=
  handlerStep c s err results nextQuery

/-- A consumer that never ends the stream and always signals "want more". -/
def alwaysMore : Consumer Nat := ⟨fun _ => false, fun _ => true⟩

/-- A consumer whose data listener calls `end()` upon observing the item `1`. -/
def endsOnOne : Consumer Nat := ⟨fun x => x == 1, fun _ => true⟩

/-- A concrete stream state with one fetch outstanding (`_reading`/`pending`
set), with the given results budget, used to exercise the completion handler
at concrete inputs. -/
def inFlight (mr : Option Int) : ResourceStream Nat Nat Nat where
  _ended := false
  _maxApiCalls := none
  _nextQuery := some 0
  _reading := true
  _requestsMade := 0
  _resultsToSend := mr
  pushed := []
  destroyed := none
  pending := true
  fetchCount := 1
  deferredRead := false

/-! ## Basic lemmas about the push loop -/

theorem pushLoop_stop (c : Consumer T) (l : List T) (m : Bool)
    (s : ResourceStream T E Q) (h : s._ended = true) :
    pushLoop c l m s = (s, m) := by
  cases l <;> simp [pushLoop, h]

theorem pushLoop_fields (c : Consumer T) (l : List T) (m : Bool)
    (s : ResourceStream T E Q) :
    (pushLoop c l m s).1._reading = s._reading ∧
    (pushLoop c l m s).1.pending = s.pending ∧
    (pushLoop c l m s).1.destroyed = s.destroyed ∧
    (pushLoop c l m s).1.fetchCount = s.fetchCount ∧
    (pushLoop c l m s).1._requestsMade = s._requestsMade ∧
    (pushLoop c l m s).1._resultsToSend = s._resultsToSend ∧
    (pushLoop c l m s).1._maxApiCalls = s._maxApiCalls ∧
    (pushLoop c l m s).1._nextQuery = s._nextQuery ∧
    (pushLoop c l m s).1.deferredRead = s.deferredRead := by
  induction l generalizing m s with
  | nil => simp [pushLoop]
  | cons x xs ih =>
    by_cases h : s._ended
    · simp [pushLoop, h]
    · simp only [Bool.not_eq_true] at h
      simpa [pushLoop, h] using
        ih (c.more x)
          { s with pushed := s.pushed ++ [x], _ended := s._ended || c.endsOn x }

theorem pushLoop_pushed_len (c : Consumer T) (l : List T) (m : Bool)
    (s : ResourceStream T E Q) :
    (pushLoop c l m s).1.pushed.length ≤ s.pushed.length + l.length := by
  induction l generalizing m s with
  | nil => simp [pushLoop]
  | cons x xs ih =>
    by_cases h : s._ended
    · simp [pushLoop, h]
    · simp only [Bool.not_eq_true] at h
      have := ih (c.more x)
        { s with pushed := s.pushed ++ [x], _ended := s._ended || c.endsOn x }
      simp only [pushLoop, h] at this ⊢
      simp at this
      simp
      omega

theorem pushLoop_spec (c : Consumer T) (l : List T) (m : Bool)
    (s : ResourceStream T E Q) (h : s._ended = false) :
    (pushLoop c l m s).1.pushed = s.pushed ++ emitUntilEnded c l ∧
    (pushLoop c l m s).1._ended = l.any c.endsOn := by
  induction l generalizing m s with
  | nil => simp [pushLoop, emitUntilEnded, h]
  | cons x xs ih =>
    by_cases hx : c.endsOn x
    · have hstop := pushLoop_stop c xs (c.more x)
        { s with pushed := s.pushed ++ [x], _ended := true } rfl
      simp [pushLoop, h, hx, hstop, emitUntilEnded]
    · have hrec := ih (c.more x)
        { s with pushed := s.pushed ++ [x], _ended := false } rfl
      simp [pushLoop, h, hx, emitUntilEnded, hrec]

theorem emitUntilEnded_length_le (c : Consumer T) (l : List T) :
    (emitUntilEnded c l).length ≤ l.length := by
  induction l with
  | nil => simp [emitUntilEnded]
  | cons x xs ih =>
    by_cases hx : c.endsOn x
    · simp [emitUntilEnded, hx]
    · simp [emitUntilEnded, hx]
      omega

/-! ## Lemmas about the completion handler -/

theorem handlerStep_err (c : Consumer T) (s : ResourceStream T E Q) (e : E)
    (rs : List T) (nq : Option Q) :
    handlerStep c s (some e) rs nq = { s with destroyed := some e, pending := false } :=
  rfl

theorem handlerStep_none_fields (c : Consumer T) (s : ResourceStream T E Q)
    (rs : List T) (nq : Option Q) :
    (handlerStep c s none rs nq)._requestsMade = s._requestsMade + 1 ∧
    (handlerStep c s none rs nq)._reading = false ∧
    (handlerStep c s none rs nq).pending = false ∧
    (handlerStep c s none rs nq).fetchCount = s.fetchCount ∧
    (handlerStep c s none rs nq).destroyed = s.destroyed ∧
    (handlerStep c s none rs nq)._maxApiCalls = s._maxApiCalls ∧
    (handlerStep c s none rs nq)._resultsToSend = (truncateToBudget s._resultsToSend rs).2 ∧
    (handlerStep c s none rs nq)._nextQuery = nq := by
  obtain ⟨h1, h2, h3, h4, h5, h6, h7, h8, h9⟩ :=
    pushLoop_fields c (truncateToBudget s._resultsToSend rs).1 true
      { s with _nextQuery := nq, pending := false,
               _resultsToSend := (truncateToBudget s._resultsToSend rs).2 }
  simp only [handlerStep]
  split <;> simp_all [endCall]

theorem handlerStep_none_pushed_len (c : Consumer T) (s : ResourceStream T E Q)
    (rs : List T) (nq : Option Q) :
    (handlerStep c s none rs nq).pushed.length ≤
      s.pushed.length + (truncateToBudget s._resultsToSend rs).1.length := by
  have hl := pushLoop_pushed_len c (truncateToBudget s._resultsToSend rs).1 true
      { s with _nextQuery := nq, pending := false,
               _resultsToSend := (truncateToBudget s._resultsToSend rs).2 }
  simp only [handlerStep]
  split <;> simpa [endCall] using hl

theorem handlerStep_none_pushed (c : Consumer T) (s : ResourceStream T E Q)
    (rs : List T) (nq : Option Q) (h : s._ended = false) :
    (handlerStep c s none rs nq).pushed =
      s.pushed ++ emitUntilEnded c (truncateToBudget s._resultsToSend rs).1 := by
  have hp := (pushLoop_spec c (truncateToBudget s._resultsToSend rs).1 true
      { s with _nextQuery := nq, pending := false,
               _resultsToSend := (truncateToBudget s._resultsToSend rs).2 } (by simp [h])).1
  simp only [handlerStep]
  split <;> simpa [endCall] using hp

theorem handlerStep_none_pushed_of_ended (c : Consumer T) (s : ResourceStream T E Q)
    (rs : List T) (nq : Option Q) (h : s._ended = true) :
    (handlerStep c s none rs nq).pushed = s.pushed := by
  have hstop := pushLoop_stop c (truncateToBudget s._resultsToSend rs).1 true
      { s with _nextQuery := nq, pending := false,
               _resultsToSend := (truncateToBudget s._resultsToSend rs).2 } (by simp [h])
  simp only [handlerStep]
  split <;> simp_all [endCall]

theorem handlerStep_none_ended_of_ended (c : Consumer T) (s : ResourceStream T E Q)
    (rs : List T) (nq : Option Q) (h : s._ended = true) :
    (handlerStep c s none rs nq)._ended = true := by
  have hstop := pushLoop_stop c (truncateToBudget s._resultsToSend rs).1 true
      { s with _nextQuery := nq, pending := false,
               _resultsToSend := (truncateToBudget s._resultsToSend rs).2 } (by simp [h])
  simp only [handlerStep]
  split <;> simp_all [endCall]

theorem handlerStep_none_ended_of_any (c : Consumer T) (s : ResourceStream T E Q)
    (rs : List T) (nq : Option Q) (h : s._ended = false)
    (ha : (truncateToBudget s._resultsToSend rs).1.any c.endsOn = true) :
    (handlerStep c s none rs nq)._ended = true := by
  have he := (pushLoop_spec c (truncateToBudget s._resultsToSend rs).1 true
      { s with _nextQuery := nq, pending := false,
               _resultsToSend := (truncateToBudget s._resultsToSend rs).2 } (by simp [h])).2
  simp only [handlerStep]
  split <;> simp_all [endCall]

theorem handlerStep_none_ended_of_madeMax (c : Consumer T) (s : ResourceStream T E Q)
    (rs : List T) (nq : Option Q)
    (h : madeMax s._maxApiCalls (s._requestsMade + 1) = true) :
    (handlerStep c s none rs nq)._ended = true := by
  obtain ⟨h1, h2, h3, h4, h5, h6, h7, h8, h9⟩ :=
    pushLoop_fields c (truncateToBudget s._resultsToSend rs).1 true
      { s with _nextQuery := nq, pending := false,
               _resultsToSend := (truncateToBudget s._resultsToSend rs).2 }
  simp only [handlerStep]
  split <;> simp_all [endCall]

theorem handlerStep_none_ended_of_noQuery (c : Consumer T) (s : ResourceStream T E Q)
    (rs : List T) :
    (handlerStep c s none rs none)._ended = true := by
  obtain ⟨h1, h2, h3, h4, h5, h6, h7, h8, h9⟩ :=
    pushLoop_fields c (truncateToBudget s._resultsToSend rs).1 true
      { s with _nextQuery := none, pending := false,
               _resultsToSend := (truncateToBudget s._resultsToSend rs).2 }
  simp only [handlerStep]
  split
  · simp [endCall]
  · rename_i hcond
    rw [h8] at hcond
    simp at hcond

theorem handlerStep_none_ended_of_budget (c : Consumer T) (s : ResourceStream T E Q)
    (rs : List T) (nq : Option Q)
    (h : budgetLt1 (truncateToBudget s._resultsToSend rs).2 = true) :
    (handlerStep c s none rs nq)._ended = true := by
  obtain ⟨h1, h2, h3, h4, h5, h6, h7, h8, h9⟩ :=
    pushLoop_fields c (truncateToBudget s._resultsToSend rs).1 true
      { s with _nextQuery := nq, pending := false,
               _resultsToSend := (truncateToBudget s._resultsToSend rs).2 }
  simp only [handlerStep]
  split
  · simp [endCall]
  · rename_i hcond
    rw [h6, h] at hcond
    simp at hcond

theorem handlerStep_none_deferred_eq (c : Consumer T) (s : ResourceStream T E Q)
    (rs : List T) (nq : Option Q) :
    (handlerStep c s none rs nq).deferredRead =
      ((pushLoop c (truncateToBudget s._resultsToSend rs).1 true
        { s with _nextQuery := nq, pending := false,
                 _resultsToSend := (truncateToBudget s._resultsToSend rs).2 }).2
       && !(handlerStep c s none rs nq)._ended) := by
  simp only [handlerStep]

/-! ## Lemmas about event runs -/

theorem step_eq_of_ended_noPending (c : Consumer T) (s : ResourceStream T E Q)
    (he : s._ended = true) (hp : s.pending = false) (e : Event T E Q) :
    step c s e = s := by
  cases e with
  | pull => simp [step, he]
  | complete err rs nq => simp [step, hp]
  | consumerEnd =>
    simp only [step, endCall]
    cases s
    simp_all

theorem run_eq_of_ended_noPending (c : Consumer T) (s : ResourceStream T E Q)
    (he : s._ended = true) (hp : s.pending = false) (evs : List (Event T E Q)) :
    run c s evs = s := by
  induction evs with
  | nil => rfl
  | cons e es ih =>
    simp only [run, step_eq_of_ended_noPending c s he hp e]
    exact ih

theorem run_frozen_of_reading_noPending (c : Consumer T) (s : ResourceStream T E Q)
    (hr : s._reading = true) (hp : s.pending = false) (evs : List (Event T E Q)) :
    (run c s evs)._reading = true ∧ (run c s evs).pending = false ∧
    (run c s evs).pushed = s.pushed ∧ (run c s evs).destroyed = s.destroyed ∧
    (run c s evs).fetchCount = s.fetchCount := by
  induction evs generalizing s with
  | nil => exact ⟨hr, hp, rfl, rfl, rfl⟩
  | cons e es ih =>
    have hs : (step c s e)._reading = true ∧ (step c s e).pending = false ∧
        (step c s e).pushed = s.pushed ∧ (step c s e).destroyed = s.destroyed ∧
        (step c s e).fetchCount = s.fetchCount := by
      cases e with
      | pull =>
        by_cases hEnd : s._ended = true
        · simp [step, hEnd, hr, hp]
        · simp only [Bool.not_eq_true] at hEnd
          simp [step, readMethod, hEnd, hr, hp]
      | complete err rs nq => simp [step, hp, hr]
      | consumerEnd => simp [step, endCall, hr, hp]
    obtain ⟨a1, a2, a3, a4, a5⟩ := hs
    obtain ⟨b1, b2, b3, b4, b5⟩ := ih (step c s e) a1 a2
    simp only [run]
    exact ⟨b1, b2, by rw [b3, a3], by rw [b4, a4], by rw [b5, a5]⟩

theorem step_complete_pending (c : Consumer T) (s : ResourceStream T E Q)
    (err : Option E) (rs : List T) (nq : Option Q) (hp : s.pending = true) :
    step c s (.complete err rs nq) = handlerStep c s err rs nq := by
  simp [step, hp]

theorem step_complete_noPending (c : Consumer T) (s : ResourceStream T E Q)
    (err : Option E) (rs : List T) (nq : Option Q) (hp : s.pending = false) :
    step c s (.complete err rs nq) = s := by
  simp [step, hp]

theorem step_pull_proj (c : Consumer T) (s : ResourceStream T E Q) :
    (step c s .pull)._resultsToSend = s._resultsToSend ∧
    (step c s .pull).pushed = s.pushed ∧
    (step c s .pull)._requestsMade = s._requestsMade ∧
    (step c s .pull)._maxApiCalls = s._maxApiCalls ∧
    (step c s .pull)._ended = s._ended := by
  simp only [step, readMethod]
  split
  · exact ⟨rfl, rfl, rfl, rfl, rfl⟩
  · split
    · exact ⟨rfl, rfl, rfl, rfl, rfl⟩
    · exact ⟨rfl, rfl, rfl, rfl, rfl⟩

theorem step_consumerEnd_proj (c : Consumer T) (s : ResourceStream T E Q) :
    (step c s .consumerEnd)._resultsToSend = s._resultsToSend ∧
    (step c s .consumerEnd).pushed = s.pushed ∧
    (step c s .consumerEnd)._requestsMade = s._requestsMade ∧
    (step c s .consumerEnd)._maxApiCalls = s._maxApiCalls := by
  simp [step, endCall]

/-- Run-level invariant for the results budget: once the budget is a
nonnegative finite value `b` with `pushed + b ≤ k`, it stays that shape. -/
theorem run_budget_inv (k : Int) (c : Consumer T) (evs : List (Event T E Q))
    (s : ResourceStream T E Q)
    (h : ∃ b, s._resultsToSend = some b ∧ 0 ≤ b ∧ (s.pushed.length : Int) + b ≤ k) :
    ∃ b, (run c s evs)._resultsToSend = some b ∧ 0 ≤ b ∧
      ((run c s evs).pushed.length : Int) + b ≤ k := by
  induction evs generalizing s with
  | nil => exact h
  | cons e es ih =>
    simp only [run]
    apply ih
    obtain ⟨b, hb, hb0, hbk⟩ := h
    cases e with
    | pull =>
      obtain ⟨p1, p2, p3, p4, p5⟩ := step_pull_proj c s
      exact ⟨b, by rw [p1, hb], hb0, by rw [p2]; exact hbk⟩
    | consumerEnd =>
      obtain ⟨p1, p2, p3, p4⟩ := step_consumerEnd_proj c s
      exact ⟨b, by rw [p1, hb], hb0, by rw [p2]; exact hbk⟩
    | complete err rs nq =>
      by_cases hpend : s.pending = true
      · rw [step_complete_pending c s err rs nq hpend]
        cases err with
        | some e =>
          rw [handlerStep_err]
          exact ⟨b, hb, hb0, hbk⟩
        | none =>
          obtain ⟨hrm, hrd, hpd, hfc, hds, hmac, hbud, hnq⟩ :=
            handlerStep_none_fields c s rs nq
          have hlen := handlerStep_none_pushed_len c s rs nq
          rw [hb] at hbud hlen
          simp only [truncateToBudget] at hbud hlen
          have htake : (rs.take b.toNat).length ≤ b.toNat := by
            simp [List.length_take]
          refine ⟨b - (rs.take b.toNat).length, hbud, by omega, ?_⟩
          omega
      · simp only [Bool.not_eq_true] at hpend
        rw [step_complete_noPending c s err rs nq hpend]
        exact ⟨b, hb, hb0, hbk⟩

theorem step_pull_fetches (c : Consumer T) (s : ResourceStream T E Q)
    (hEnd : s._ended = false) (hr : s._reading = false) :
    step c s .pull =
      { s with _reading := true, pending := true, fetchCount := s.fetchCount + 1 } := by
  simp [step, readMethod, hEnd, hr]

/-- Run-level invariant for the call cap: the number of issued fetches always
matches `_requestsMade` plus the in-flight one, stays at most `n`, and reaching
`n` completed requests forces `_ended`. -/
def callCapInv (n : Int) (s : ResourceStream T E Q) : Prop :=
  s._maxApiCalls = some n ∧
  (s.fetchCount : Int) = s._requestsMade + (if s._reading = true then 1 else 0) ∧
  s._requestsMade + (if s._reading = true then 1 else 0) ≤ n ∧
  (n ≤ s._requestsMade → s._ended = true) ∧
  (s.pending = true → s._reading = true)

theorem step_callCapInv (n : Int) (c : Consumer T) (s : ResourceStream T E Q)
    (e : Event T E Q) (h : callCapInv n s) : callCapInv n (step c s e) := by
  obtain ⟨hmac, hfc, hsum, hend, hpr⟩ := h
  cases e with
  | pull =>
    by_cases hEnd : s._ended = true
    · have hst : step c s .pull = s := by simp [step, hEnd]
      rw [hst]
      exact ⟨hmac, hfc, hsum, hend, hpr⟩
    · simp only [Bool.not_eq_true] at hEnd
      by_cases hr : s._reading = true
      · have hst : step c s .pull = s := by simp [step, readMethod, hEnd, hr]
        rw [hst]
        exact ⟨hmac, hfc, hsum, hend, hpr⟩
      · simp only [Bool.not_eq_true] at hr
        rw [step_pull_fetches c s hEnd hr]
        have hlt : s._requestsMade < n := by
          by_contra hc
          push_neg at hc
          have h2 := hend hc
          rw [h2] at hEnd
          exact Bool.true_eq_false.mp hEnd
        rw [hr] at hfc
        simp only [Bool.false_eq_true, if_false] at hfc
        refine ⟨hmac, ?_, ?_, ?_, fun _ => rfl⟩
        · show ((s.fetchCount + 1 : Nat) : Int) = s._requestsMade + (if true = true then 1 else 0)
          simp only [if_pos]
          push_cast
          omega
        · show s._requestsMade + (if true = true then 1 else 0) ≤ n
          simp only [if_pos]
          omega
        · show n ≤ s._requestsMade → s._ended = true
          intro hn
          exact absurd hn (by omega)
  | consumerEnd =>
    exact ⟨hmac, hfc, hsum, fun _ => rfl, hpr⟩
  | complete err rs nq =>
    by_cases hpend : s.pending = true
    · have hread := hpr hpend
      rw [step_complete_pending c s err rs nq hpend]
      cases err with
      | some e =>
        rw [handlerStep_err]
        refine ⟨hmac, ?_, hsum, hend, fun hx => absurd hx (by simp)⟩
        exact hfc
      | none =>
        obtain ⟨hrm, hrd, hpd, hfcn, hds, hmacn, hbud, hnq⟩ :=
          handlerStep_none_fields c s rs nq
        rw [hread] at hfc hsum
        simp only [if_pos] at hfc hsum
        refine ⟨by rw [hmacn, hmac], ?_, ?_, ?_, ?_⟩
        · rw [hfcn, hrm, hrd]
          simp only [Bool.false_eq_true, if_false]
          omega
        · rw [hrm, hrd]
          simp only [Bool.false_eq_true, if_false]
          omega
        · intro hn
          rw [hrm] at hn
          exact handlerStep_none_ended_of_madeMax c s rs nq
            (by rw [hmac]; simpa [madeMax] using hn)
        · rw [hpd]
          intro hx
          exact absurd hx (by simp)
    · simp only [Bool.not_eq_true] at hpend
      rw [step_complete_noPending c s err rs nq hpend]
      exact ⟨hmac, hfc, hsum, hend, hpr⟩

theorem run_callCapInv (n : Int) (c : Consumer T) (evs : List (Event T E Q))
    (s : ResourceStream T E Q) (h : callCapInv n s) : callCapInv n (run c s evs) := by
  induction evs generalizing s with
  | nil => exact h
  | cons e es ih =>
    simp only [run]
    exact ih (step c s e) (step_callCapInv n c s e h)

/-! ## Claim theorems -/

/-- C1: for every `maxResults` value `k ≥ 0` given to the stream, at most `k`
items in total are delivered downstream across all fetches combined (on each
successful fetch the items are truncated to the remaining budget and the
budget is decremented by the retained count), and a completed fetch that
leaves the budget below 1 ends the stream. -/
theorem maxResults_total_cap (k : Int) (hk : 0 ≤ k) (c : Consumer T)
    (q : Option Q) (mac : Int) (evs : List (Event T E Q))
    (t : ResourceStream T E Q) (rs : List T) (nq : Option Q)
    (ht : t.pending = true)
    (hb : budgetLt1 ((step c t (.complete none rs nq))._resultsToSend) = true) :
    (((run c (mkResourceStream ⟨mac, k, q⟩) evs).pushed.length : Int) ≤ k) ∧
    (step c t (.complete none rs nq))._ended = true := by
  have hne : k ≠ -1 := by omega
  constructor
  · obtain ⟨b, hbud, hb0, hbk⟩ := run_budget_inv k c evs (mkResourceStream ⟨mac, k, q⟩)
      ⟨k, by simp [mkResourceStream, hne], hk, by simp [mkResourceStream]⟩
    omega
  · rw [step_complete_pending c t none rs nq ht] at hb ⊢
    rw [(handlerStep_none_fields c t rs nq).2.2.2.2.2.2.1] at hb
    exact handlerStep_none_ended_of_budget c t rs nq hb

/-- C1 witness: `maxResults = 1` caps a two-page run at one delivered item,
and a fetch that exhausts the budget ends the stream. -/
theorem maxResults_total_cap_witness :
    (((run alwaysMore (mkResourceStream ⟨-1, 1, some 0⟩ : ResourceStream Nat Nat Nat)
        [.pull, .complete none [7, 8, 9] (some 0), .pull,
         .complete none [10] (some 0)]).pushed.length : Int) ≤ 1) ∧
    (step alwaysMore (inFlight (some 1)) (.complete none [3, 4] (some 0)))._ended = true :=
  maxResults_total_cap 1 (by decide) alwaysMore (some 0) (-1)
    [.pull, .complete none [7, 8, 9] (some 0), .pull, .complete none [10] (some 0)]
    (inFlight (some 1)) [3, 4] (some 0) rfl (by decide)

/-- C2: with `maxApiCalls = n ≥ 1`, at most `n` fetches are ever issued, the
completed-request counter `_requestsMade` never exceeds `n`, reaching `n`
forces the stream to end, and every completed successful fetch increments
`_requestsMade` by exactly one. -/
theorem maxApiCalls_fetch_cap (n : Int) (hn : 1 ≤ n) (c : Consumer T)
    (q : Option Q) (mr : Int) (evs : List (Event T E Q))
    (t : ResourceStream T E Q) (rs : List T) (nq : Option Q)
    (ht : t.pending = true) :
    (((run c (mkResourceStream ⟨n, mr, q⟩) evs).fetchCount : Int) ≤ n ∧
     (run c (mkResourceStream ⟨n, mr, q⟩) evs)._requestsMade ≤ n ∧
     (n ≤ (run c (mkResourceStream ⟨n, mr, q⟩) evs)._requestsMade →
       (run c (mkResourceStream ⟨n, mr, q⟩) evs)._ended = true)) ∧
    (step c t (.complete none rs nq))._requestsMade = t._requestsMade + 1 := by
  have hne : n ≠ -1 := by omega
  have h0 : callCapInv n (mkResourceStream ⟨n, mr, q⟩ : ResourceStream T E Q) := by
    refine ⟨by simp [mkResourceStream, hne], by simp [mkResourceStream], ?_, ?_, ?_⟩
    · show (0 : Int) + (if false = true then 1 else 0) ≤ n
      simp
      omega
    · show n ≤ (0 : Int) → (mkResourceStream ⟨n, mr, q⟩ : ResourceStream T E Q)._ended = true
      intro h2
      exact absurd h2 (by omega)
    · exact fun h2 => h2
  obtain ⟨hmac, hfc, hsum, hend, hpr⟩ := run_callCapInv n c evs _ h0
  refine ⟨⟨?_, ?_, hend⟩, ?_⟩
  · by_cases hr : (run c (mkResourceStream ⟨n, mr, q⟩) evs)._reading = true
    · rw [hr] at hfc hsum
      simp at hfc hsum
      omega
    · simp only [Bool.not_eq_true] at hr
      rw [hr] at hfc hsum
      simp at hfc hsum
      omega
  · by_cases hr : (run c (mkResourceStream ⟨n, mr, q⟩) evs)._reading = true
    · rw [hr] at hsum
      simp at hsum
      omega
    · simp only [Bool.not_eq_true] at hr
      rw [hr] at hsum
      simp at hsum
      omega
  · rw [step_complete_pending c t none rs nq ht]
    exact (handlerStep_none_fields c t rs nq).1

/-- C2 witness: `maxApiCalls = 2` lets a run issue exactly two fetches and end,
and a completed fetch bumps `_requestsMade` from 0 to 1. -/
theorem maxApiCalls_fetch_cap_witness :
    (((run alwaysMore (mkResourceStream ⟨2, -1, some 0⟩ : ResourceStream Nat Nat Nat)
        [.pull, .complete none [1] (some 0), .pull,
         .complete none [2] (some 0), .pull, .pull]).fetchCount : Int) ≤ 2) ∧
    (step alwaysMore (inFlight none) (.complete none [5] (some 0)))._requestsMade =
      (inFlight none)._requestsMade + 1 :=
  ⟨(maxApiCalls_fetch_cap 2 (by decide) alwaysMore (some 0) (-1)
      [.pull, .complete none [1] (some 0), .pull, .complete none [2] (some 0), .pull, .pull]
      (inFlight none) [5] (some 0) rfl).1.1,
   (maxApiCalls_fetch_cap 2 (by decide) alwaysMore (some 0) (-1)
      [.pull, .complete none [1] (some 0), .pull, .complete none [2] (some 0), .pull, .pull]
      (inFlight none) [5] (some 0) rfl).2⟩

/-- C4: a pull (`_read`) that arrives while `_reading` is true is a no-op: it
changes no state and invokes no fetch, so a second fetch never starts before
the current fetch's handler has completed. -/
theorem reentrant_pull_noop (c : Consumer T) (s : ResourceStream T E Q)
    (hr : s._reading = true) :
    step c s .pull = s ∧ readMethod s = s :=
  ⟨by simp [step, readMethod, hr], by simp [readMethod, hr]⟩

/-- C4 witness: a pull against a state with a fetch in flight is the identity. -/
theorem reentrant_pull_noop_witness :
    step alwaysMore (inFlight none) .pull = inFlight none ∧
    readMethod (inFlight none) = inFlight none :=
  reentrant_pull_noop alwaysMore (inFlight none) rfl

/-- C3 counterexample: a successful fetch reporting a present-but-EMPTY
mapping as `nextQuery` does not terminate the sequence.  JS truthiness of an
object ignores its contents, so `!this._nextQuery` is false for `{}`: the
stream does not end and a further fetch is issued (here the model's empty
mapping is `some []` with `Q = List Nat`). -/
theorem empty_mapping_not_exhaustion :
    (run alwaysMore
      (mkResourceStream ⟨-1, -1, some []⟩ : ResourceStream Nat Nat (List Nat))
      [.pull, .complete none [] (some []), .pull])._ended = false ∧
    (run alwaysMore
      (mkResourceStream ⟨-1, -1, some []⟩ : ResourceStream Nat Nat (List Nat))
      [.pull, .complete none [] (some []), .pull]).fetchCount = 2 := by
  decide

/-- C3 amended: only an absent (`null`/`undefined`) `nextQuery` counts as
exhaustion.  When a successful fetch reports an absent cursor, the sequence
ends after emitting that fetch's (possibly capped) items and no further fetch
is ever issued; a present-but-empty mapping instead counts as "more pages
exist". -/
theorem absent_cursor_terminates (c : Consumer T) (s : ResourceStream T E Q)
    (rs : List T) (evs : List (Event T E Q))
    (hp : s.pending = true) (he : s._ended = false) :
    ((step c s (.complete none rs none))._ended = true) ∧
    (step c s (.complete none rs none)).pushed =
      s.pushed ++ emitUntilEnded c (truncateToBudget s._resultsToSend rs).1 ∧
    (run c (step c s (.complete none rs none)) evs).fetchCount =
      (step c s (.complete none rs none)).fetchCount := by
  rw [step_complete_pending c s none rs none hp]
  have h1 := handlerStep_none_ended_of_noQuery c s rs
  have h2 := handlerStep_none_pushed c s rs none he
  have h3 := (handlerStep_none_fields c s rs none).2.2.1
  refine ⟨h1, h2, ?_⟩
  rw [run_eq_of_ended_noPending c _ h1 h3 evs]

/-- C3 amended witness: an absent cursor ends the stream after its items and
freezes the fetch count across later events. -/
theorem absent_cursor_terminates_witness :
    ((step alwaysMore (inFlight none) (.complete none [4, 5] none))._ended = true) ∧
    (step alwaysMore (inFlight none) (.complete none [4, 5] none)).pushed =
      (inFlight none).pushed ++
        emitUntilEnded alwaysMore (truncateToBudget (inFlight none)._resultsToSend [4, 5]).1 ∧
    (run alwaysMore (step alwaysMore (inFlight none) (.complete none [4, 5] none))
        [.pull, .pull, .complete none [9] (some 0)]).fetchCount =
      (step alwaysMore (inFlight none) (.complete none [4, 5] none)).fetchCount :=
  absent_cursor_terminates alwaysMore (inFlight none) [4, 5]
    [.pull, .pull, .complete none [9] (some 0)] rfl rfl

/-- C5: if the consumer ends the stream mid-emission of a fetch's retained
items, the `_ended` flag is checked before every item, so emission stops at
the item that triggered `end()` (all later items of that fetch are dropped),
no deferred next pull is scheduled, and no subsequent fetch is ever issued. -/
theorem consumer_end_mid_emission (c : Consumer T) (s : ResourceStream T E Q)
    (rs : List T) (nq : Option Q) (evs : List (Event T E Q))
    (hp : s.pending = true) (he : s._ended = false)
    (ha : (truncateToBudget s._resultsToSend rs).1.any c.endsOn = true) :
    (step c s (.complete none rs nq)).pushed =
      s.pushed ++ emitUntilEnded c (truncateToBudget s._resultsToSend rs).1 ∧
    (step c s (.complete none rs nq))._ended = true ∧
    (step c s (.complete none rs nq)).deferredRead = false ∧
    (run c (step c s (.complete none rs nq)) evs).fetchCount =
      (step c s (.complete none rs nq)).fetchCount ∧
    (run c (step c s (.complete none rs nq)) evs).pushed =
      (step c s (.complete none rs nq)).pushed := by
  rw [step_complete_pending c s none rs nq hp]
  have hpu := handlerStep_none_pushed c s rs nq he
  have hen := handlerStep_none_ended_of_any c s rs nq he ha
  have hpd := (handlerStep_none_fields c s rs nq).2.2.1
  have hdef := handlerStep_none_deferred_eq c s rs nq
  rw [hen] at hdef
  simp only [Bool.not_true, Bool.and_false] at hdef
  have hrun := run_eq_of_ended_noPending c _ hen hpd evs
  exact ⟨hpu, hen, hdef, by rw [hrun], by rw [hrun]⟩

/-- C5 witness: a consumer ending on item `1` receives `[0, 1]` from the page
`[0, 1, 2, 3]`, the deferred pull is not scheduled, and later events issue no
fetch and push nothing. -/
theorem consumer_end_mid_emission_witness :
    (step endsOnOne (inFlight none) (.complete none [0, 1, 2, 3] (some 0))).pushed =
      (inFlight none).pushed ++
        emitUntilEnded endsOnOne (truncateToBudget (inFlight none)._resultsToSend [0, 1, 2, 3]).1 ∧
    (step endsOnOne (inFlight none) (.complete none [0, 1, 2, 3] (some 0)))._ended = true ∧
    (step endsOnOne (inFlight none) (.complete none [0, 1, 2, 3] (some 0))).deferredRead = false ∧
    (run endsOnOne (step endsOnOne (inFlight none) (.complete none [0, 1, 2, 3] (some 0)))
        [.pull, .consumerEnd, .pull]).fetchCount =
      (step endsOnOne (inFlight none) (.complete none [0, 1, 2, 3] (some 0))).fetchCount ∧
    (run endsOnOne (step endsOnOne (inFlight none) (.complete none [0, 1, 2, 3] (some 0)))
        [.pull, .consumerEnd, .pull]).pushed =
      (step endsOnOne (inFlight none) (.complete none [0, 1, 2, 3] (some 0))).pushed :=
  consumer_end_mid_emission endsOnOne (inFlight none) [0, 1, 2, 3] (some 0)
    [.pull, .consumerEnd, .pull] rfl rfl (by decide)

/-- C6: a handler invoked with an error destroys the stream with exactly that
error, processes and emits none of that fetch's items (cursor, budget and
pushed items unchanged), and afterwards no item is ever pushed, the recorded
error never changes, and no further fetch is issued. -/
theorem fetch_error_terminal (c : Consumer T) (s : ResourceStream T E Q)
    (e : E) (rs : List T) (nq : Option Q) (evs : List (Event T E Q))
    (hp : s.pending = true) (hr : s._reading = true) :
    (step c s (.complete (some e) rs nq)).destroyed = some e ∧
    (step c s (.complete (some e) rs nq)).pushed = s.pushed ∧
    (step c s (.complete (some e) rs nq))._resultsToSend = s._resultsToSend ∧
    (step c s (.complete (some e) rs nq))._nextQuery = s._nextQuery ∧
    (run c (step c s (.complete (some e) rs nq)) evs).pushed = s.pushed ∧
    (run c (step c s (.complete (some e) rs nq)) evs).destroyed = some e ∧
    (run c (step c s (.complete (some e) rs nq)) evs).fetchCount =
      (step c s (.complete (some e) rs nq)).fetchCount := by
  rw [step_complete_pending c s (some e) rs nq hp, handlerStep_err]
  obtain ⟨f1, f2, f3, f4, f5⟩ :=
    run_frozen_of_reading_noPending c
      { s with destroyed := some e, pending := false } (by simpa using hr) rfl evs
  exact ⟨rfl, rfl, rfl, rfl, by rw [f3], by rw [f4], by rw [f5]⟩

/-- C6 witness: a fetch error `42` destroys the stream, leaves its page
unprocessed, and freezes pushed items, error and fetch count. -/
theorem fetch_error_terminal_witness :
    (step alwaysMore (inFlight none) (.complete (some 42) [1, 2] (some 0))).destroyed = some 42 ∧
    (step alwaysMore (inFlight none) (.complete (some 42) [1, 2] (some 0))).pushed =
      (inFlight none).pushed ∧
    (step alwaysMore (inFlight none) (.complete (some 42) [1, 2] (some 0)))._resultsToSend =
      (inFlight none)._resultsToSend ∧
    (step alwaysMore (inFlight none) (.complete (some 42) [1, 2] (some 0)))._nextQuery =
      (inFlight none)._nextQuery ∧
    (run alwaysMore (step alwaysMore (inFlight none) (.complete (some 42) [1, 2] (some 0)))
        [.pull, .consumerEnd, .complete none [3] (some 0), .pull]).pushed =
      (inFlight none).pushed ∧
    (run alwaysMore (step alwaysMore (inFlight none) (.complete (some 42) [1, 2] (some 0)))
        [.pull, .consumerEnd, .complete none [3] (some 0), .pull]).destroyed = some 42 ∧
    (run alwaysMore (step alwaysMore (inFlight none) (.complete (some 42) [1, 2] (some 0)))
        [.pull, .consumerEnd, .complete none [3] (some 0), .pull]).fetchCount =
      (step alwaysMore (inFlight none) (.complete (some 42) [1, 2] (some 0))).fetchCount :=
  fetch_error_terminal alwaysMore (inFlight none) 42 [1, 2] (some 0)
    [.pull, .consumerEnd, .complete none [3] (some 0), .pull] rfl rfl

/-- C7 (code bug, evaluated at the failing input): `_read` (src lines 55-100)
has no try/catch around `this._requestFn`, so a synchronous throw escapes
`_read` unhandled and the stream is NOT destroyed; the repo's own test
("should destroy the stream if the request method throws",
test/resource-stream.ts) expects `destroy(error)` with that same error
surfacing on the error channel.  A fresh stream whose request function throws
error `7` ends with the exception propagated and `destroyed = none`. -/
theorem requestFn_throw_escapes :
    readWhenRequestFnThrows 7
      (mkResourceStream ⟨-1, -1, some 0⟩ : ResourceStream Nat Nat Nat) =
      ({ (mkResourceStream ⟨-1, -1, some 0⟩ : ResourceStream Nat Nat Nat) with
          _reading := true }, some 7) ∧
    (readWhenRequestFnThrows 7
      (mkResourceStream ⟨-1, -1, some 0⟩ : ResourceStream Nat Nat Nat)).1.destroyed = none := by
  decide

/-- C8 (code bug): the completion handler declared on src line 64 binds only
`(err, results, nextQuery)`, so any trailing arguments the request function
passes are discarded entirely — the resulting state is independent of them,
hence nothing is preserved or forwarded to the final consumer.  The repo's own
test ("should cache the rest of the callback arguments",
test/resource-stream.ts) expects them cached in `_otherArgs`. -/
theorem trailing_args_discarded (c : Consumer T) (s : ResourceStream T E Q)
    (err : Option E) (rs : List T) (nq : Option Q) (extras extras2 : List A) :
    handlerStepJS c s err rs nq extras = handlerStepJS c s err rs nq extras2 :=
  rfl

/-- C9 counterexample: `_read` itself does not check `_ended`.  After a run
in which an absent cursor has ended the stream and no fetch is in flight,
calling `_read` directly is NOT a no-op: it changes state (`_reading` flips)
and issues a fetch. -/
theorem read_after_end_fetches :
    ((run alwaysMore (mkResourceStream ⟨-1, -1, some 0⟩ : ResourceStream Nat Nat Nat)
        [.pull, .complete none [5] none])._ended = true) ∧
    ((run alwaysMore (mkResourceStream ⟨-1, -1, some 0⟩ : ResourceStream Nat Nat Nat)
        [.pull, .complete none [5] none])._reading = false) ∧
    readMethod (run alwaysMore (mkResourceStream ⟨-1, -1, some 0⟩ : ResourceStream Nat Nat Nat)
        [.pull, .complete none [5] none]) ≠
      run alwaysMore (mkResourceStream ⟨-1, -1, some 0⟩ : ResourceStream Nat Nat Nat)
        [.pull, .complete none [5] none] ∧
    (readMethod (run alwaysMore (mkResourceStream ⟨-1, -1, some 0⟩ : ResourceStream Nat Nat Nat)
        [.pull, .complete none [5] none])).fetchCount =
      (run alwaysMore (mkResourceStream ⟨-1, -1, some 0⟩ : ResourceStream Nat Nat Nat)
        [.pull, .complete none [5] none]).fetchCount + 1 := by
  decide

/-- C9 amended: post-end pulls are no-ops at the system level, not inside
`_read` itself: the stream machinery pulls only a non-ended stream and the
engine's deferred pull is scheduled only under `!this._ended` (src line 93),
so every pull event arriving after the stream has ended leaves the state
unchanged and issues no fetch; `_read` alone checks only `_reading`. -/
theorem pull_after_end_noop (c : Consumer T) (s : ResourceStream T E Q)
    (he : s._ended = true) : step c s .pull = s := by
  simp [step, he]

/-- C9 amended witness: a pull against a concrete ended state is the identity. -/
theorem pull_after_end_noop_witness :
    step alwaysMore (endCall (inFlight none)) .pull = endCall (inFlight none) :=
  pull_after_end_noop alwaysMore (endCall (inFlight none)) rfl

/-- C10: a successful fetch with zero retained items, while the stream has not
ended, the cursor is truthy, the budget is not below 1 and the call cap is not
reached, still schedules the deferred next pull: `more` is initialized `true`
and is never updated when no item is pushed, so pagination proceeds through
empty pages. -/
theorem empty_page_schedules_next (c : Consumer T) (s : ResourceStream T E Q)
    (nq : Option Q) (hp : s.pending = true) (he : s._ended = false)
    (hq : nq.isSome = true)
    (hbud : budgetLt1 s._resultsToSend = false)
    (hcap : madeMax s._maxApiCalls (s._requestsMade + 1) = false) :
    (step c s (.complete none [] nq)).deferredRead = true ∧
    (step c s (.complete none [] nq)).pushed = s.pushed ∧
    (step c s (.complete none [] nq))._ended = false := by
  rw [step_complete_pending c s none [] nq hp]
  obtain ⟨q0, hq0⟩ := Option.isSome_iff_exists.mp hq
  subst hq0
  cases hbu : s._resultsToSend with
  | none =>
    simp [handlerStep, truncateToBudget, pushLoop, budgetLt1, hbu, he, hcap]
  | some b =>
    rw [hbu] at hbud
    simp only [budgetLt1, decide_eq_false_iff_not, not_lt] at hbud
    simp [handlerStep, truncateToBudget, pushLoop, budgetLt1, hbu, he, hcap]
    rw [if_neg (show ¬ b < 1 by omega)]
    simp

/-- C10 witness: an empty page with a truthy cursor, budget 5 and no call cap
schedules the deferred next pull without ending the stream. -/
theorem empty_page_schedules_next_witness :
    (step alwaysMore (inFlight (some 5)) (.complete none [] (some 3))).deferredRead = true ∧
    (step alwaysMore (inFlight (some 5)) (.complete none [] (some 3))).pushed =
      (inFlight (some 5)).pushed ∧
    (step alwaysMore (inFlight (some 5)) (.complete none [] (some 3)))._ended = false :=
  empty_page_schedules_next alwaysMore (inFlight (some 5)) (some 3)
    rfl rfl rfl (by decide) (by decide)
